import Mathlib

/-!
# Verification of the `pueblos_magicos` Google-API helpers

Shallow embedding of `src/python/google_api.py`: the Google polyline codec
(`encode_coords`, `decode_polyline`, `_split_into_chunks`, `_encode_value`)
and the directions-response helper `get_directions_polylines`.

Modelling conventions:
* Python's unbounded integers are `ℤ` (or `ℕ` where the source value is
  provably non-negative); Python numbers used as coordinates are `ℚ` with
  exact arithmetic.
* `int(q)` is truncation toward zero: `Int.tdiv q.num q.den`.
* On Python ints, `~n = -n - 1`, `n << 1 = 2 * n`, and `n & 31 = n % 32`
  (Euclidean remainder); these arithmetic identities are used where the
  source applies the bitwise operator to a possibly negative value.
* A raised Python exception (`IndexError`, `NameError`) is the `none` /
  `Except.error` outcome of the embedded function.
-/

namespace GoogleApi

/-- Python `int(q)` on an exact numeric value: truncation toward zero. -/
def pyInt (q : ℚ) : ℤ := Int.tdiv q.num q.den

/-- Embeds `_split_into_chunks(value)` (`google_api.py` lines 217-224): repeatedly
emit the low five bits with the continuation bit `0x20` set while at least
five bits remain, then emit the final value.  The source only ever calls it
on the non-negative result of the sign fold, so the argument is `ℕ`. -/
def splitIntoChunks (value : ℕ) : List ℕ :=
  if h : 32 ≤ value then ((value &&& 31) ||| 0x20) :: splitIntoChunks (value >>> 5)
  else [value]
termination_by value
decreasing_by
  simpa [Nat.shiftRight_eq_div_pow] using Nat.div_lt_self (by omega) (by omega)

/-- Embeds `_encode_value(value)` (`google_api.py` lines 227-235): sign fold
(`~(value << 1)` when negative, i.e. `-(2*value) - 1`, else `value << 1`),
then chunk and offset each chunk by 63 into a character. -/
def encodeValue (value : ℤ) : List Char :=
  let folded : ℤ := if value < 0 then -(2 * value) - 1 else 2 * value
  (splitIntoChunks folded.toNat).map (fun chunk => Char.ofNat (chunk + 63))

/-- The loop of `encode_coords` (`google_api.py` lines 203-212).  For each
input pair `(x, y)` the source computes `lat, lng = int(y * 1e5), int(x * 1e5)`
(note the swap: the variable **named** `lat` holds the scaled second
component) and appends `d_lng` before `d_lat`. -/
def encodeLoop : List (ℚ × ℚ) → ℤ → ℤ → List Char
  | [], _, _ => []
  | (x, y) :: rest, prevLat, prevLng =>
    let lat : ℤ := pyInt (y * 100000)
    let lng : ℤ := pyInt (x * 100000)
    encodeValue (lng - prevLng) ++ encodeValue (lat - prevLat) ++ encodeLoop rest lat lng

/-- Embeds `encode_coords(coords)` (`google_api.py` lines 185-214). -/
def encode_coords (coords : List (ℚ × ℚ)) : String :=
  String.mk (encodeLoop coords 0 0)

/-- The sign unfold at the end of the per-integer decode loop
(`google_api.py` lines 172-175): `~(result >> 1)` when the low bit is set,
else `result >> 1`. -/
def unfoldSign (result : ℕ) : ℤ :=
  if result &&& 1 = 1 then -((result >>> 1 : ℕ) : ℤ) - 1 else ((result >>> 1 : ℕ) : ℤ)

/-- The inner `while True` loop of `decode_polyline` (`google_api.py` lines
162-175), which decodes one variable-length integer: subtract 63 from each
character, accumulate the low five bits at the current shift, and continue
while the continuation bit `0x20` is set.  Returns the decoded value and the
unconsumed suffix; `none` models the `IndexError` Python raises when the
string is exhausted mid-integer. -/
def parseValue : List Char → ℕ → ℕ → Option (ℤ × List Char)
  | [], _, _ => none
  | c :: rest, shift, result =>
    let byte : ℤ := (c.toNat : ℤ) - 63
    let result' : ℕ := result ||| ((byte % 32).toNat <<< shift)
    if 32 ≤ byte then parseValue rest (shift + 5) result'
    else some (unfoldSign result', rest)

/-- The outer `while index < len(polyline_str)` loop of `decode_polyline`
(`google_api.py` lines 159-180): per iteration decode a latitude delta, then
a longitude delta, add them to the running totals and append
`[lat / 100000.0, lng / 100000.0]`. -/
def decodeLoop (s : List Char) (lat lng : ℤ) : Option (List (ℚ × ℚ)) :=
  match hs : s with
  | [] => some []
  | _ :: _ =>
    match h1 : parseValue s 0 0 with
    | none => none
    | some (dlat, s1) =>
      match h2 : parseValue s1 0 0 with
      | none => none
      | some (dlng, s2) =>
        match decodeLoop s2 (lat + dlat) (lng + dlng) with
        | none => none
        | some coords =>
          some ((((lat + dlat : ℤ) : ℚ) / 100000, ((lng + dlng : ℤ) : ℚ) / 100000) :: coords)
termination_by s.length
decreasing_by
  have key : ∀ (t : List Char) (sh r : ℕ) (v : ℤ) (rest : List Char),
      parseValue t sh r = some (v, rest) → rest.length < t.length := by
    intro t
    induction t with
    | nil => intro sh r v rest hp; simp [parseValue] at hp
    | cons c cs ih =>
      intro sh r v rest hp
      simp only [parseValue] at hp
      by_cases hb : 32 ≤ ((c.toNat : ℤ) - 63)
      · rw [if_pos hb] at hp
        exact Nat.lt_trans (ih _ _ _ _ hp) (by simp)
      · rw [if_neg hb] at hp
        cases hp
        simp
  have h1' := key _ _ _ _ _ h1
  have h2' := key _ _ _ _ _ h2
  rw [hs] at h1'
  exact Nat.lt_trans h2' h1'

/-- Embeds `decode_polyline(polyline_str)` (`google_api.py` lines 143-182). -/
def decode_polyline (s : String) : Option (List (ℚ × ℚ)) :=
  decodeLoop s.data 0 0

/-- The coordinates actually stored by one encode/decode round trip: each
component scaled by `10^5`, truncated toward zero, and scaled back down. -/
def scaledCoords : List (ℚ × ℚ) → List (ℚ × ℚ)
  | [] => []
  | (x, y) :: rest =>
    ((pyInt (x * 100000) : ℚ) / 100000, (pyInt (y * 100000) : ℚ) / 100000) :: scaledCoords rest

/-- Modelled from the spec: `scale_up` "multiply by 100000 and truncate
toward zero", expressed with the floor/ceiling of the exact product. -/
def truncToZero (q : ℚ) : ℤ := if 0 ≤ q then ⌊q⌋ else ⌈q⌉

/-- Modelled from the spec: the per-coordinate emission order §4.3 claims for
the encoder — "encode longitude-delta then latitude-delta", with the input
pairs in `(latitude, longitude)` order as the source docstring states. -/
def encodeLoopLngFirst : List (ℚ × ℚ) → ℤ → ℤ → List Char
  | [], _, _ => []
  | (lat, lng) :: rest, prevLat, prevLng =>
    encodeValue (pyInt (lng * 100000) - prevLng) ++ encodeValue (pyInt (lat * 100000) - prevLat) ++
      encodeLoopLngFirst rest (pyInt (lat * 100000)) (pyInt (lng * 100000))

/-- Modelled from the spec: sequence encoder that emits the longitude delta
before the latitude delta for every coordinate pair. -/
def encodeCoordsLngFirst (coords : List (ℚ × ℚ)) : String :=
  String.mk (encodeLoopLngFirst coords 0 0)

/-- The amended emission order: latitude delta first, then longitude delta,
for every coordinate pair. -/
def encodeLoopLatFirst : List (ℚ × ℚ) → ℤ → ℤ → List Char
  | [], _, _ => []
  | (lat, lng) :: rest, prevLat, prevLng =>
    encodeValue (pyInt (lat * 100000) - prevLat) ++ encodeValue (pyInt (lng * 100000) - prevLng) ++
      encodeLoopLatFirst rest (pyInt (lat * 100000)) (pyInt (lng * 100000))

/-- Sequence encoder that emits the latitude delta before the longitude
delta for every coordinate pair. -/
def encodeCoordsLatFirst (coords : List (ℚ × ℚ)) : String :=
  String.mk (encodeLoopLatFirst coords 0 0)

/-- One entry of a directions response, as far as `get_directions_polylines`
inspects it: `overviewPolyline = some pts` models an entry whose
`'overview_polyline'` key is present with nested `'points'` string `pts`;
`none` models an entry without the `'overview_polyline'` key. -/
structure Direction where
  overviewPolyline : Option String
deriving DecidableEq

/-- A raised Python exception, by kind and offending name. -/
inductive PyError where
  | nameError : String → PyError
deriving DecidableEq

/-- The `for direction in directions_result` loop of
`get_directions_polylines` (`google_api.py` lines 61-66) with its `polylines`
accumulator.  The `else` branch executes `polyline.append(None)` where
`polyline` is an undefined name, so Python raises `NameError` there. -/
def gdpLoop : List Direction → List String → Except PyError (List String)
  | [], acc => .ok acc
  | d :: rest, acc =>
    match d.overviewPolyline with
    | some pts => gdpLoop rest (acc ++ [pts])
    | none => .error (.nameError "polyline")

/-- Embeds `get_directions_polylines(directions_result)` (`google_api.py` lines
52-67), including the redundant `if len(directions_result) > 0` guard. -/
def get_directions_polylines (dirs : List Direction) : Except PyError (List String) :=
  if 0 < dirs.length then gdpLoop dirs [] else .ok []

/-! ## Basic helper lemmas -/

theorem pyInt_intCast (n : ℤ) : pyInt ((n : ℚ)) = n := by
  simp [pyInt, Rat.num_intCast, Rat.den_intCast, Int.tdiv_one]

theorem pyInt_div_pow5 (n : ℤ) : pyInt (((n : ℚ) / 100000) * 100000) = n := by
  rw [div_mul_cancel₀ _ (by norm_num : (100000 : ℚ) ≠ 0), pyInt_intCast]

theorem char_chunk_toNat : ∀ c : ℕ, c < 64 → (Char.ofNat (c + 63)).toNat = c + 63 := by
  decide

theorem and31_eq_mod (v : ℕ) : v &&& 31 = v % 32 := by
  apply Nat.eq_of_testBit_eq
  intro j
  rw [Nat.testBit_and, show (31 : ℕ) = 2 ^ 5 - 1 by norm_num,
    Nat.testBit_two_pow_sub_one, show (32 : ℕ) = 2 ^ 5 by norm_num,
    Nat.testBit_mod_two_pow, Bool.and_comm]

theorem lor_shiftLeft_eq_add {a b n : ℕ} (h : a < 2 ^ n) :
    a ||| (b <<< n) = a + b * 2 ^ n := by
  apply Nat.eq_of_testBit_eq
  intro j
  rw [Nat.testBit_lor, Nat.testBit_shiftLeft,
    show a + b * 2 ^ n = 2 ^ n * b + a by ring, Nat.testBit_mul_pow_two_add _ h]
  by_cases hj : j < n
  · simp [hj, Nat.not_le.mpr hj]
  · have ha : a.testBit j = false :=
      Nat.testBit_lt_two_pow (lt_of_lt_of_le h (Nat.pow_le_pow_right (by omega) (by omega)))
    simp [hj, Nat.le_of_not_lt hj, ha]

theorem splitIntoChunks_ne_nil (v : ℕ) : splitIntoChunks v ≠ [] := by
  rw [splitIntoChunks]
  split <;> simp

theorem encodeValue_ne_nil (d : ℤ) : encodeValue d ≠ [] := by
  unfold encodeValue
  simpa using splitIntoChunks_ne_nil _

theorem splitIntoChunks_lt (v : ℕ) : ∀ c ∈ splitIntoChunks v, c < 64 := by
  induction v using Nat.strong_induction_on with
  | _ v ih =>
    rw [splitIntoChunks]
    split
    · rename_i h
      intro c hc
      rcases List.mem_cons.mp hc with hc | hc
      · subst hc
        have h31 : v &&& 31 < 32 := by
          have := Nat.and_le_right (n := v) (m := 31); omega
        have : (v &&& 31) ||| 32 = (v &&& 31) + 32 := by
          have := lor_shiftLeft_eq_add (a := v &&& 31) (b := 1) (n := 5) (by omega)
          simpa using this
        omega
      · exact ih (v >>> 5)
          (by simpa [Nat.shiftRight_eq_div_pow] using Nat.div_lt_self (by omega) (by omega)) c hc
    · intro c hc
      rename_i h
      rcases List.mem_singleton.mp hc with rfl
      omega

/-! ## The variable-length integer codec round trip -/

theorem parseValue_cons (c : Char) (rest : List Char) (shift result : ℕ) :
    parseValue (c :: rest) shift result =
      if 32 ≤ (c.toNat : ℤ) - 63 then
        parseValue rest (shift + 5) (result ||| ((((c.toNat : ℤ) - 63) % 32).toNat <<< shift))
      else some (unfoldSign (result ||| ((((c.toNat : ℤ) - 63) % 32).toNat <<< shift)), rest) :=
  rfl

theorem parseValue_length_lt :
    ∀ (s : List Char) (shift result : ℕ) (v : ℤ) (rest : List Char),
      parseValue s shift result = some (v, rest) → rest.length < s.length := by
  intro s
  induction s with
  | nil => intro shift result v rest hp; simp [parseValue] at hp
  | cons c cs ih =>
    intro shift result v rest hp
    rw [parseValue_cons] at hp
    by_cases hb : 32 ≤ ((c.toNat : ℤ) - 63)
    · rw [if_pos hb] at hp
      exact Nat.lt_trans (ih _ _ _ _ hp) (by simp)
    · rw [if_neg hb] at hp
      cases hp
      simp

theorem parseValue_chunk_char (ch : ℕ) (hch : ch < 64) (rest : List Char)
    (shift result : ℕ) (hres : result < 2 ^ shift) :
    parseValue (Char.ofNat (ch + 63) :: rest) shift result =
      if 32 ≤ ch then parseValue rest (shift + 5) (result + ch % 32 * 2 ^ shift)
      else some (unfoldSign (result + ch * 2 ^ shift), rest) := by
  rw [parseValue_cons]
  have htn : ((Char.ofNat (ch + 63)).toNat : ℤ) - 63 = (ch : ℤ) := by
    rw [char_chunk_toNat ch hch]; push_cast; ring
  rw [htn]
  have hmod : ((ch : ℤ) % 32).toNat = ch % 32 := by omega
  rw [hmod, lor_shiftLeft_eq_add hres]
  by_cases h : 32 ≤ ch
  · rw [if_pos h, if_pos (by exact_mod_cast h)]
  · rw [if_neg h, if_neg (by exact_mod_cast h), Nat.mod_eq_of_lt (by omega)]

theorem parseValue_chunks (t : List Char) :
    ∀ (v shift result : ℕ), result < 2 ^ shift →
      parseValue ((splitIntoChunks v).map (fun chunk => Char.ofNat (chunk + 63)) ++ t)
          shift result
        = some (unfoldSign (result + v * 2 ^ shift), t) := by
  intro v
  induction v using Nat.strong_induction_on with
  | _ v ih =>
    intro shift result hres
    rw [splitIntoChunks]
    by_cases h32 : 32 ≤ v
    · rw [dif_pos h32]
      have h31 : v &&& 31 = v % 32 := and31_eq_mod v
      have hor : (v &&& 31) ||| 32 = v % 32 + 32 := by
        rw [h31]
        simpa using lor_shiftLeft_eq_add (a := v % 32) (b := 1) (n := 5) (by omega)
      rw [List.map_cons, List.cons_append, hor,
        parseValue_chunk_char _ (by omega) _ _ _ hres, if_pos (by omega)]
      have hmod : (v % 32 + 32) % 32 = v % 32 := by omega
      rw [hmod]
      have hsm : v >>> 5 < v := by
        simpa [Nat.shiftRight_eq_div_pow] using Nat.div_lt_self (by omega) (by omega)
      have hps : (2 : ℕ) ^ (shift + 5) = 2 ^ shift * 32 := by rw [pow_add]; norm_num
      have hres' : result + v % 32 * 2 ^ shift < 2 ^ (shift + 5) := by
        have hm : v % 32 < 32 := by omega
        nlinarith [hres, hm]
      rw [ih (v >>> 5) hsm (shift + 5) _ hres']
      have harith : result + v % 32 * 2 ^ shift + v >>> 5 * 2 ^ (shift + 5)
          = result + v * 2 ^ shift := by
        rw [Nat.shiftRight_eq_div_pow, hps]
        have hdm := Nat.div_add_mod v 32
        norm_num
        conv_rhs => rw [← hdm]
        ring
      rw [harith]
    · rw [dif_neg h32, List.map_cons, List.map_nil, List.cons_append, List.nil_append,
        parseValue_chunk_char v (by omega) t shift result hres, if_neg (by omega)]

theorem unfoldSign_fold (d : ℤ) :
    unfoldSign (if d < 0 then -(2 * d) - 1 else 2 * d).toNat = d := by
  unfold unfoldSign
  simp only [Nat.and_one_is_mod, Nat.shiftRight_eq_div_pow, pow_one]
  by_cases hd : d < 0
  · rw [if_pos hd, if_pos (by omega)]
    omega
  · rw [if_neg hd, if_neg (by omega)]
    omega

theorem parseValue_encodeValue (d : ℤ) (t : List Char) :
    parseValue (encodeValue d ++ t) 0 0 = some (d, t) := by
  simp only [encodeValue]
  rw [parseValue_chunks t _ 0 0 (by norm_num)]
  rw [zero_add, pow_zero, mul_one, unfoldSign_fold]

/-! ## Decoding an encoded sequence -/

theorem decodeLoop_nil (lat lng : ℤ) : decodeLoop [] lat lng = some [] := by
  rw [decodeLoop]

theorem decodeLoop_parse1_none (s : List Char) (hs : s ≠ []) (lat lng : ℤ)
    (h1 : parseValue s 0 0 = none) : decodeLoop s lat lng = none := by
  obtain ⟨c, cs, rfl⟩ := List.exists_cons_of_ne_nil hs
  rw [decodeLoop]
  split
  · rfl
  · rename_i d s' heq
    exact absurd (heq.symm.trans h1) (by simp)

theorem decodeLoop_parse2_none (s s1 : List Char) (hs : s ≠ []) (lat lng d1 : ℤ)
    (h1 : parseValue s 0 0 = some (d1, s1)) (h2 : parseValue s1 0 0 = none) :
    decodeLoop s lat lng = none := by
  obtain ⟨c, cs, rfl⟩ := List.exists_cons_of_ne_nil hs
  rw [decodeLoop]
  split
  · rename_i heq
    exact absurd (heq.symm.trans h1) (by simp)
  · rename_i d s' heq
    have h1' := heq.symm.trans h1
    obtain ⟨rfl, rfl⟩ : d = d1 ∧ s' = s1 :=
      ⟨congrArg Prod.fst (Option.some.inj h1'), congrArg Prod.snd (Option.some.inj h1')⟩
    split
    · rfl
    · rename_i d2 s2 heq2
      exact absurd (heq2.symm.trans h2) (by simp)

theorem decodeLoop_parse_some (s s1 s2 : List Char) (hs : s ≠ []) (lat lng d1 d2 : ℤ)
    (h1 : parseValue s 0 0 = some (d1, s1)) (h2 : parseValue s1 0 0 = some (d2, s2)) :
    decodeLoop s lat lng =
      match decodeLoop s2 (lat + d1) (lng + d2) with
      | none => none
      | some coords =>
        some ((((lat + d1 : ℤ) : ℚ) / 100000, ((lng + d2 : ℤ) : ℚ) / 100000) :: coords) := by
  obtain ⟨c, cs, rfl⟩ := List.exists_cons_of_ne_nil hs
  rw [decodeLoop]
  split
  · rename_i heq
    exact absurd (heq.symm.trans h1) (by simp)
  · rename_i d s' heq
    have h1' := heq.symm.trans h1
    obtain ⟨rfl, rfl⟩ : d = d1 ∧ s' = s1 :=
      ⟨congrArg Prod.fst (Option.some.inj h1'), congrArg Prod.snd (Option.some.inj h1')⟩
    split
    · rename_i heq2
      exact absurd (heq2.symm.trans h2) (by simp)
    · rename_i d2' s2' heq2
      have h2' := heq2.symm.trans h2
      obtain ⟨rfl, rfl⟩ : d2' = d2 ∧ s2' = s2 :=
        ⟨congrArg Prod.fst (Option.some.inj h2'), congrArg Prod.snd (Option.some.inj h2')⟩
      rfl

theorem decodeLoop_encodeLoop : ∀ (seq : List (ℚ × ℚ)) (pl pn : ℤ),
    decodeLoop (encodeLoop seq pl pn) pn pl = some (scaledCoords seq) := by
  intro seq
  induction seq with
  | nil => intro pl pn; simp [encodeLoop, scaledCoords, decodeLoop_nil]
  | cons p rest ih =>
    intro pl pn
    obtain ⟨x, y⟩ := p
    simp only [encodeLoop, scaledCoords]
    rw [List.append_assoc]
    have hne : encodeValue (pyInt (x * 100000) - pn) ++
        (encodeValue (pyInt (y * 100000) - pl) ++
          encodeLoop rest (pyInt (y * 100000)) (pyInt (x * 100000))) ≠ [] := by
      intro hcontra
      exact encodeValue_ne_nil _ (List.append_eq_nil.mp hcontra).1
    rw [decodeLoop_parse_some _ _ _ hne pn pl _ _
      (parseValue_encodeValue _ _) (parseValue_encodeValue _ _)]
    rw [show pn + (pyInt (x * 100000) - pn) = pyInt (x * 100000) from by ring,
      show pl + (pyInt (y * 100000) - pl) = pyInt (y * 100000) from by ring]
    rw [ih (pyInt (y * 100000)) (pyInt (x * 100000))]

theorem decode_encode (seq : List (ℚ × ℚ)) :
    decode_polyline (encode_coords seq) = some (scaledCoords seq) :=
  decodeLoop_encodeLoop seq 0 0

theorem scaledCoords_eq_self : ∀ (seq : List (ℚ × ℚ)),
    (∀ p ∈ seq, (∃ m : ℤ, p.1 = (m : ℚ) / 100000) ∧ (∃ n : ℤ, p.2 = (n : ℚ) / 100000)) →
    scaledCoords seq = seq := by
  intro seq
  induction seq with
  | nil => intro _; rfl
  | cons p rest ih =>
    intro hall
    obtain ⟨⟨m, hm⟩, ⟨n, hn⟩⟩ := hall p (by simp)
    obtain ⟨x, y⟩ := p
    simp only [scaledCoords]
    simp only at hm hn
    rw [hm, hn, pyInt_div_pow5, pyInt_div_pow5]
    rw [ih (fun q hq => hall q (by simp [hq]))]

theorem encodeLoop_scaledCoords : ∀ (seq : List (ℚ × ℚ)) (a b : ℤ),
    encodeLoop (scaledCoords seq) a b = encodeLoop seq a b := by
  intro seq
  induction seq with
  | nil => intro a b; rfl
  | cons p rest ih =>
    intro a b
    obtain ⟨x, y⟩ := p
    simp only [scaledCoords, encodeLoop]
    rw [pyInt_div_pow5, pyInt_div_pow5, ih]

/-! ## Strings ending mid-integer -/

theorem parseValue_last_cont (c : Char) (hc : 32 ≤ (c.toNat : ℤ) - 63) :
    ∀ (init : List Char) (sh r : ℕ),
      parseValue (init ++ [c]) sh r = none ∨
      ∃ v init', parseValue (init ++ [c]) sh r = some (v, init' ++ [c]) := by
  intro init
  induction init with
  | nil =>
    intro sh r
    left
    rw [List.nil_append, parseValue_cons, if_pos hc]
    rfl
  | cons d ds ih =>
    intro sh r
    rw [List.cons_append, parseValue_cons]
    by_cases hd : 32 ≤ ((d.toNat : ℤ) - 63)
    · rw [if_pos hd]
      exact ih _ _
    · rw [if_neg hd]
      right
      exact ⟨_, ds, rfl⟩

theorem decodeLoop_cont_last (c : Char) (hc : 32 ≤ (c.toNat : ℤ) - 63) :
    ∀ (n : ℕ) (init : List Char), init.length ≤ n →
      ∀ lat lng, decodeLoop (init ++ [c]) lat lng = none := by
  intro n
  induction n using Nat.strong_induction_on with
  | _ n ih =>
    intro init hlen lat lng
    have hne : init ++ [c] ≠ [] := by simp
    rcases parseValue_last_cont c hc init 0 0 with hp | ⟨v, init1, hp⟩
    · exact decodeLoop_parse1_none _ hne _ _ hp
    · rcases parseValue_last_cont c hc init1 0 0 with hp2 | ⟨v2, init2, hp2⟩
      · exact decodeLoop_parse2_none _ _ hne _ _ _ hp hp2
      · rw [decodeLoop_parse_some _ _ _ hne lat lng _ _ hp hp2]
        have hlt1 : (init1 ++ [c]).length < (init ++ [c]).length :=
          parseValue_length_lt _ _ _ _ _ hp
        have hlt2 : (init2 ++ [c]).length < (init1 ++ [c]).length :=
          parseValue_length_lt _ _ _ _ _ hp2
        simp only [List.length_append, List.length_singleton] at hlt1 hlt2
        rw [ih init2.length (by omega) init2 (le_refl _) (lat + v) (lng + v2)]

/-! ## Truncation toward zero -/

theorem pyInt_eq_truncToZero (q : ℚ) : pyInt q = truncToZero q := by
  unfold pyInt truncToZero
  by_cases hq : 0 ≤ q
  · rw [if_pos hq, Rat.floor_def]
    exact Int.tdiv_eq_ediv (Rat.num_nonneg.mpr hq) (by positivity)
  · rw [if_neg hq]
    push_neg at hq
    have hnum : q.num < 0 := Rat.num_neg.mpr hq
    have hce : ⌈q⌉ = -⌊-q⌋ := by
      have h := Int.ceil_neg (a := -q)
      rwa [neg_neg] at h
    have hfl : ⌊-q⌋ = (-q.num) / (q.den : ℤ) := by
      rw [Rat.floor_def, Rat.num_neg_eq_neg_num, Rat.den_neg_eq_den]
    have h1 : (-q.num).tdiv q.den = (-q.num) / (q.den : ℤ) :=
      Int.tdiv_eq_ediv (by omega) (by positivity)
    have h2 : (-q.num).tdiv (q.den : ℤ) = -(q.num.tdiv q.den) := Int.neg_tdiv _ _
    rw [hce, hfl]
    linarith [h1, h2]

/-! ## Encoder emission order -/

theorem encodeLoop_eq_latFirst : ∀ (seq : List (ℚ × ℚ)) (a b : ℤ),
    encodeLoop seq a b = encodeLoopLatFirst seq b a := by
  intro seq
  induction seq with
  | nil => intro a b; rfl
  | cons p rest ih =>
    intro a b
    obtain ⟨x, y⟩ := p
    simp only [encodeLoop, encodeLoopLatFirst]
    rw [ih]

/-! ## Output characters are printable -/

theorem encodeValue_chars (d : ℤ) (c : Char) (hc : c ∈ encodeValue d) :
    63 ≤ c.toNat ∧ c.toNat ≤ 126 := by
  simp only [encodeValue, List.mem_map] at hc
  obtain ⟨chunk, hmem, rfl⟩ := hc
  have h64 := splitIntoChunks_lt _ _ hmem
  rw [char_chunk_toNat _ h64]
  omega

theorem encodeLoop_chars : ∀ (seq : List (ℚ × ℚ)) (a b : ℤ) (c : Char),
    c ∈ encodeLoop seq a b → 63 ≤ c.toNat ∧ c.toNat ≤ 126 := by
  intro seq
  induction seq with
  | nil => intro a b c hc; simp [encodeLoop] at hc
  | cons p rest ih =>
    intro a b c hc
    obtain ⟨x, y⟩ := p
    simp only [encodeLoop, List.mem_append] at hc
    rcases hc with (hc | hc) | hc
    · exact encodeValue_chars _ _ hc
    · exact encodeValue_chars _ _ hc
    · exact ih _ _ _ hc

/-! ## The directions-polylines helper -/

theorem gdpLoop_all_some : ∀ (dirs : List Direction) (acc : List String),
    (∀ d ∈ dirs, d.overviewPolyline.isSome) →
    gdpLoop dirs acc = .ok (acc ++ dirs.map (fun d => d.overviewPolyline.getD "")) := by
  intro dirs
  induction dirs with
  | nil => intro acc _; simp [gdpLoop]
  | cons d rest ih =>
    intro acc hall
    obtain ⟨pts, hpts⟩ := Option.isSome_iff_exists.mp (hall d (by simp))
    simp only [gdpLoop, hpts]
    rw [ih _ (fun q hq => hall q (by simp [hq]))]
    simp [hpts]

theorem gdpLoop_missing : ∀ (dirs : List Direction) (acc : List String),
    (∃ d ∈ dirs, d.overviewPolyline = none) →
    gdpLoop dirs acc = .error (.nameError "polyline") := by
  intro dirs
  induction dirs with
  | nil => intro acc h; simp at h
  | cons d rest ih =>
    intro acc h
    rcases hd : d.overviewPolyline with _ | pts
    · simp [gdpLoop, hd]
    · simp only [gdpLoop, hd]
      apply ih
      rcases h with ⟨d', hd', hnone⟩
      rcases List.mem_cons.mp hd' with rfl | hmem
      · exact absurd (hd.symm.trans hnone) (by simp)
      · exact ⟨d', hmem, hnone⟩

/-! ## Concrete evaluations -/

theorem pyInt_zero5 : pyInt ((0 : ℚ) * 100000) = 0 := by
  rw [show ((0 : ℚ) * 100000) = ((0 : ℤ) : ℚ) by norm_num, pyInt_intCast]

theorem pyInt_one5 : pyInt ((1 : ℚ) * 100000) = 100000 := by
  rw [show ((1 : ℚ) * 100000) = ((100000 : ℤ) : ℚ) by norm_num, pyInt_intCast]

theorem pyInt_v1lat : pyInt ((38.5 : ℚ) * 100000) = 3850000 := by
  rw [show ((38.5 : ℚ) * 100000) = ((3850000 : ℤ) : ℚ) by norm_num, pyInt_intCast]

theorem pyInt_v1lng : pyInt ((-120.2 : ℚ) * 100000) = -12020000 := by
  rw [show ((-120.2 : ℚ) * 100000) = ((-12020000 : ℤ) : ℚ) by norm_num, pyInt_intCast]

theorem pyInt_v2lat : pyInt ((40.7 : ℚ) * 100000) = 4070000 := by
  rw [show ((40.7 : ℚ) * 100000) = ((4070000 : ℤ) : ℚ) by norm_num, pyInt_intCast]

theorem pyInt_v2lng : pyInt ((-120.95 : ℚ) * 100000) = -12095000 := by
  rw [show ((-120.95 : ℚ) * 100000) = ((-12095000 : ℤ) : ℚ) by norm_num, pyInt_intCast]

theorem pyInt_v3lat : pyInt ((43.252 : ℚ) * 100000) = 4325200 := by
  rw [show ((43.252 : ℚ) * 100000) = ((4325200 : ℤ) : ℚ) by norm_num, pyInt_intCast]

theorem pyInt_v3lng : pyInt ((-126.453 : ℚ) * 100000) = -12645300 := by
  rw [show ((-126.453 : ℚ) * 100000) = ((-12645300 : ℤ) : ℚ) by norm_num, pyInt_intCast]

theorem encode_single_eval : encode_coords [((1 : ℚ), (0 : ℚ))] = "_ibE?" := by
  simp only [encode_coords, encodeLoop, pyInt_one5, pyInt_zero5, encodeValue]
  norm_num
  simp [splitIntoChunks]
  decide

theorem encodeLngFirst_single_eval : encodeCoordsLngFirst [((1 : ℚ), (0 : ℚ))] = "?_ibE" := by
  simp only [encodeCoordsLngFirst, encodeLoopLngFirst, pyInt_one5, pyInt_zero5, encodeValue]
  norm_num
  simp [splitIntoChunks]
  decide

theorem scaled_single_eval : scaledCoords [((1 : ℚ), (0 : ℚ))] = [((1 : ℚ), (0 : ℚ))] := by
  simp only [scaledCoords, pyInt_one5, pyInt_zero5]
  norm_num

theorem encode_vector_eval :
    encode_coords [((38.5 : ℚ), (-120.2 : ℚ)), ((40.7 : ℚ), (-120.95 : ℚ)),
        ((43.252 : ℚ), (-126.453 : ℚ))]
      = "_p~iF~ps|U_ulLnnqC_mqNvxq`@" := by
  simp only [encode_coords, encodeLoop, pyInt_v1lat, pyInt_v1lng, pyInt_v2lat, pyInt_v2lng,
    pyInt_v3lat, pyInt_v3lng, encodeValue]
  norm_num
  simp [splitIntoChunks]
  decide

theorem scaled_vector_eval :
    scaledCoords [((38.5 : ℚ), (-120.2 : ℚ)), ((40.7 : ℚ), (-120.95 : ℚ)),
        ((43.252 : ℚ), (-126.453 : ℚ))]
      = [((38.5 : ℚ), (-120.2 : ℚ)), ((40.7 : ℚ), (-120.95 : ℚ)),
        ((43.252 : ℚ), (-126.453 : ℚ))] := by
  simp only [scaledCoords, pyInt_v1lat, pyInt_v1lng, pyInt_v2lat, pyInt_v2lng,
    pyInt_v3lat, pyInt_v3lng]
  norm_num

/-! ## Claim theorems -/

/-- C1: for every coordinate sequence whose latitude and longitude values are
exact multiples of `10 ^ (-5)`, decoding the string produced by encoding the
sequence yields exactly the original sequence:
`decode_polyline (encode_coords seq) = some seq`. -/
theorem decode_encode_roundtrip_exact (seq : List (ℚ × ℚ))
    (h : ∀ p ∈ seq,
      (∃ m : ℤ, p.1 = (m : ℚ) / 100000) ∧ (∃ n : ℤ, p.2 = (n : ℚ) / 100000)) :
    decode_polyline (encode_coords seq) = some seq := by
  rw [decode_encode seq, scaledCoords_eq_self seq h]

/-- Witness for C1 at the concrete sequence `[(38.5, -120.2)]`. -/
theorem decode_encode_roundtrip_exact_witness :
    (∀ p ∈ [((38.5 : ℚ), (-120.2 : ℚ))],
      (∃ m : ℤ, p.1 = (m : ℚ) / 100000) ∧ (∃ n : ℤ, p.2 = (n : ℚ) / 100000)) ∧
    decode_polyline (encode_coords [((38.5 : ℚ), (-120.2 : ℚ))])
      = some [((38.5 : ℚ), (-120.2 : ℚ))] := by
  have h : ∀ p ∈ [((38.5 : ℚ), (-120.2 : ℚ))],
      (∃ m : ℤ, p.1 = (m : ℚ) / 100000) ∧ (∃ n : ℤ, p.2 = (n : ℚ) / 100000) := by
    intro p hp
    rw [List.mem_singleton] at hp
    subst hp
    exact ⟨⟨3850000, by norm_num⟩, ⟨-12020000, by norm_num⟩⟩
  exact ⟨h, decode_encode_roundtrip_exact _ h⟩

/-- C2: encoding the three-coordinate reference sequence produces exactly the
reference string, and decoding that string returns exactly those three
coordinates. -/
theorem known_vector :
    encode_coords [((38.5 : ℚ), (-120.2 : ℚ)), ((40.7 : ℚ), (-120.95 : ℚ)),
        ((43.252 : ℚ), (-126.453 : ℚ))]
      = "_p~iF~ps|U_ulLnnqC_mqNvxq`@" ∧
    decode_polyline "_p~iF~ps|U_ulLnnqC_mqNvxq`@"
      = some [((38.5 : ℚ), (-120.2 : ℚ)), ((40.7 : ℚ), (-120.95 : ℚ)),
          ((43.252 : ℚ), (-126.453 : ℚ))] := by
  refine ⟨encode_vector_eval, ?_⟩
  rw [← encode_vector_eval, decode_encode, scaled_vector_eval]

/-- C3 counterexample: at the single-coordinate input `[(1, 0)]`
(latitude 1, longitude 0), `encode_coords` does **not** emit the longitude
delta before the latitude delta: the longitude-first encoder the spec
describes would produce `"?_ibE"`, but `encode_coords` produces `"_ibE?"`
(latitude delta first). -/
theorem encoder_lng_first_counterexample :
    encode_coords [((1 : ℚ), (0 : ℚ))] ≠ encodeCoordsLngFirst [((1 : ℚ), (0 : ℚ))] := by
  rw [encode_single_eval, encodeLngFirst_single_eval]
  decide

/-- C3 amended: for every input coordinate sequence and every coordinate in
it, `encode_coords` emits the chunk characters of the **latitude** delta
before the chunk characters of the **longitude** delta (the `d_lng`/`d_lat`
variable names in the source are swapped relative to their contents, so the
append order `d_lng` then `d_lat` emits latitude first). -/
theorem encoder_emits_latitude_first (coords : List (ℚ × ℚ)) :
    encode_coords coords = encodeCoordsLatFirst coords := by
  unfold encode_coords encodeCoordsLatFirst
  rw [encodeLoop_eq_latFirst]

/-- C4: for every input string that ends in the middle of a variable-length
integer (the continuation bit `0x20` is still set when the last character
has been consumed), `decode_polyline` fails with an error result (`none`,
the embedded image of the `IndexError` the source raises), not a silently
truncated coordinate list. -/
theorem decode_truncated_input_fails (s : List Char) (c : Char)
    (hc : 0x20 ≤ (c.toNat : ℤ) - 63) :
    decode_polyline (String.mk (s ++ [c])) = none :=
  decodeLoop_cont_last c hc s.length s (le_refl _) 0 0

/-- Witness for C4 at the single-character string `"_"`
(`'_'` maps to `95 - 63 = 32 ≥ 0x20`). -/
theorem decode_truncated_input_fails_witness :
    0x20 ≤ (('_'.toNat : ℤ) - 63) ∧ decode_polyline (String.mk ['_']) = none :=
  ⟨by decide, decode_truncated_input_fails [] '_' (by decide)⟩

/-- C5: for every string in the image of `encode_coords`, re-encoding its
decoding reproduces the string exactly:
if `decode_polyline (encode_coords seq) = some l` then
`encode_coords l = encode_coords seq`. -/
theorem encode_decode_stability (seq l : List (ℚ × ℚ))
    (h : decode_polyline (encode_coords seq) = some l) :
    encode_coords l = encode_coords seq := by
  have hd := decode_encode seq
  have hl : l = scaledCoords seq := Option.some.inj (h.symm.trans hd)
  subst hl
  unfold encode_coords
  rw [encodeLoop_scaledCoords]

/-- Witness for C5 at the concrete sequence `[(1, 0)]`. -/
theorem encode_decode_stability_witness :
    decode_polyline (encode_coords [((1 : ℚ), (0 : ℚ))]) = some [((1 : ℚ), (0 : ℚ))] ∧
    encode_coords [((1 : ℚ), (0 : ℚ))] = encode_coords [((1 : ℚ), (0 : ℚ))] := by
  have h : decode_polyline (encode_coords [((1 : ℚ), (0 : ℚ))])
      = some [((1 : ℚ), (0 : ℚ))] := by
    rw [decode_encode, scaled_single_eval]
  exact ⟨h, encode_decode_stability _ _ h⟩

/-- C6: the variable-length integer codec round-trips: for every signed
integer `d`, running the decoder's per-integer loop on the character
sequence produced by `_encode_value d` (followed by any suffix) yields `d`
back, consuming exactly the characters of `_encode_value d`. -/
theorem varint_roundtrip (d : ℤ) (t : List Char) :
    parseValue (encodeValue d ++ t) 0 0 = some (d, t) :=
  parseValue_encodeValue d t

/-- C7: the scaled integer that `encode_coords` feeds into delta computation
(`pyInt (v * 100000)`, i.e. Python's `int(v * 1e5)`) equals `v` multiplied
by `100000` and truncated toward zero, for both positive and negative `v`. -/
theorem scaled_integer_truncates_toward_zero (v : ℚ) :
    pyInt (v * 100000) = truncToZero (v * 100000) :=
  pyInt_eq_truncToZero (v * 100000)

/-- C8: every character of the string returned by `encode_coords` has a code
point between 63 and 126 inclusive. -/
theorem encode_output_printable (coords : List (ℚ × ℚ)) (c : Char)
    (hc : c ∈ (encode_coords coords).data) :
    63 ≤ c.toNat ∧ c.toNat ≤ 126 :=
  encodeLoop_chars coords 0 0 c hc

/-- Witness for C8: the character `'_'` of `encode_coords [(1, 0)] = "_ibE?"`. -/
theorem encode_output_printable_witness : 63 ≤ '_'.toNat ∧ '_'.toNat ≤ 126 :=
  encode_output_printable [((1 : ℚ), (0 : ℚ))] '_'
    (by rw [encode_single_eval]; decide)

/-- C9: `encode_coords` applied to the empty coordinate sequence returns the
empty string, and `decode_polyline` applied to the empty string returns the
empty coordinate sequence. -/
theorem empty_input_identities :
    encode_coords [] = "" ∧ decode_polyline "" = some [] :=
  ⟨rfl, decodeLoop_nil 0 0⟩

/-- C10: `get_directions_polylines` succeeds exactly when every entry of its
input has the `'overview_polyline'` key, returning the nested `'points'`
strings in input order; a non-empty input with at least one entry lacking
the key makes it fail with a `NameError` for the undefined name `polyline`
(the source's `else` branch misspells the accumulator), not append a `None`
placeholder. -/
theorem directions_polylines_spec (dirs : List Direction) :
    ((∀ d ∈ dirs, d.overviewPolyline.isSome) →
      get_directions_polylines dirs
        = .ok (dirs.map (fun d => d.overviewPolyline.getD ""))) ∧
    ((∃ d ∈ dirs, d.overviewPolyline = none) →
      get_directions_polylines dirs = .error (.nameError "polyline")) := by
  constructor
  · intro hall
    unfold get_directions_polylines
    cases dirs with
    | nil => rfl
    | cons d rest =>
      rw [if_pos (by simp), gdpLoop_all_some _ [] hall, List.nil_append]
  · intro hex
    unfold get_directions_polylines
    cases dirs with
    | nil => simp at hex
    | cons d rest =>
      rw [if_pos (by simp), gdpLoop_missing _ [] hex]

/-- Witness for C10: a one-entry input with the key present succeeds; a
two-entry input whose second entry lacks the key raises the `NameError`. -/
theorem directions_polylines_spec_witness :
    get_directions_polylines [⟨some "abc"⟩] = .ok ["abc"] ∧
    get_directions_polylines [⟨some "abc"⟩, ⟨none⟩] = .error (.nameError "polyline") := by
  constructor
  · have h := (directions_polylines_spec [⟨some "abc"⟩]).1 (by simp)
    simpa using h
  · exact (directions_polylines_spec [⟨some "abc"⟩, ⟨none⟩]).2 ⟨⟨none⟩, by simp, rfl⟩

end GoogleApi
